import Mathlib

/-!
# Verification of the VibeParser core against its specification

This file shallowly embeds the two core components of the VibeParser
repository and proves (or refutes) the spec's claims about them:

* `src/vibe_parser/core/router.py` — the `PDFRouter` document-type
  classifier (`identify_type`, `_calculate_text_quality_score`,
  `_analyze_image_content`).
* `src/vibe_parser/utils/postprocessing.py` — the `TextPostProcessor`
  (`clean_text`, `structure_text`, `_identify_sections`,
  `_simple_sentence_splitting`, `extract_keywords`, `assess_quality`).

Modelling conventions:

* Python floats are modelled as rationals (`ℚ`); the numeric claims under
  verification concern order comparisons, exact ratios of small sums and
  interval bounds, none of which depend on binary floating-point rounding.
* Calls into the external `fitz` (PyMuPDF) library are modelled at the API
  boundary: a document is a list of pages carrying the measurements the
  code reads off the handle (page rectangle area, text-block areas and
  types, raw page text, image descriptors with an optional bounding-box
  area, `none` standing for `page.get_image_bbox` raising).  A failing
  `fitz.open` — or any other exception thrown while inspecting the
  document, all of which the source catches in the same top-level
  `try`/`except` — is modelled by passing `none` for the whole document.
* Python strings are modelled as `String` / `List Char`.  The Unicode
  classes used by the source (`str.isalnum`, regex `\w`) are modelled by
  Lean's ASCII character predicates; every concrete input appearing in a
  proof below is ASCII, where the two notions agree.
* `round(x, 2)` on Python floats is modelled as round-half-to-even on ℚ
  scaled by 100 (Python's documented tie rule).
-/

namespace VibeParser

/-! ## Character classes

`isPySpace` is the set of characters matched by Python's `str.isspace`
and by the regex class `\s` on `str` patterns (the Unicode whitespace
set). -/

def isPySpace (c : Char) : Bool :=
  c = ' ' || c = '\t' || c = '\n' || c = '\x0b' || c = '\x0c' || c = '\r' ||
  c = '\x1c' || c = '\x1d' || c = '\x1e' || c = '\x1f' ||
  c = '\x85' || c = '\xa0' || c = '\u1680' ||
  ('\u2000' ≤ c && c ≤ '\u200a') ||
  c = '\u2028' || c = '\u2029' || c = '\u202f' || c = '\u205f' || c = '\u3000'

/-- Python regex `\w` (word character), modelled over ASCII:
alphanumeric or underscore. -/
def isWordChar (c : Char) : Bool := c.isAlphanum || c = '_'

/-- Python `str.isalnum`, modelled over ASCII. -/
def isPyAlnum (c : Char) : Bool := c.isAlphanum

/-! ## Router: `src/vibe_parser/core/router.py`

The `fitz` API boundary.  A `Block` models one entry of
`page.get_text("blocks")`: the source computes
`fitz.Rect(block[:4]).get_area()` and reads `block[6]` (the block type),
so we carry exactly the rectangle area and the type.  An `Image` models
one entry of `page.get_images()`; `bboxArea = none` models
`page.get_image_bbox` raising. -/

structure Block where
  rectArea : ℚ
  blockType : ℤ

structure Image where
  bboxArea : Option ℚ

structure Page where
  rectArea : ℚ
  blocks : List Block
  text : String
  images : List Image

structure Doc where
  pages : List Page

/-- `text.count(' ')` — number of space characters. -/
def countSpaces (s : String) : ℕ := (s.data.filter (fun c => c = ' ')).length

/-- Number of characters `c` of `text` with `c.isalnum()`. -/
def countAlnum (s : String) : ℕ := (s.data.filter isPyAlnum).length

/-- Pages sampled by `_calculate_text_quality_score` and
`_analyze_image_content`: `pages_to_check = min(3, len(doc))`. -/
def qualitySample (d : Doc) : List Page := d.pages.take (min 3 d.pages.length)

/-- Total characters over the quality sample (`total_chars`). -/
def qualityTotalChars (d : Doc) : ℕ :=
  ((qualitySample d).map (fun p => p.text.length)).sum

/-- Alphanumeric characters over the quality sample (`valid_word_chars`). -/
def qualityAlnumChars (d : Doc) : ℕ :=
  ((qualitySample d).map (fun p => countAlnum p.text)).sum

/-- Space characters over the quality sample (`space_count`). -/
def qualitySpaceChars (d : Doc) : ℕ :=
  ((qualitySample d).map (fun p => countSpaces p.text)).sum

/-- `PDFRouter._calculate_text_quality_score`: quality of the text of the
first ≤ 3 pages, `0.7 * alnum/total + 0.3 * space/total`, and `0.0` when
no characters were sampled. -/
def calculate_text_quality_score (d : Doc) : ℚ :=
  if qualityTotalChars d = 0 then 0
  else (qualityAlnumChars d / qualityTotalChars d) * (7/10) +
       (qualitySpaceChars d / qualityTotalChars d) * (3/10)

/-- The area contributed by one image in `_analyze_image_content`:
`page.get_image_bbox(img).get_area()`, or — when the bbox lookup raises —
the `except` branch's estimate `page_rect.get_area() * 0.5`. -/
def imageArea (pageArea : ℚ) (im : Image) : ℚ :=
  match im.bboxArea with
  | some a => a
  | none => pageArea * (1/2)

/-- `total_images_area` over the ≤ 3 sampled pages. -/
def totalImagesArea (d : Doc) : ℚ :=
  ((qualitySample d).map (fun p => (p.images.map (imageArea p.rectArea)).sum)).sum

/-- `total_page_area` over the ≤ 3 sampled pages. -/
def imageSamplePageArea (d : Doc) : ℚ :=
  ((qualitySample d).map Page.rectArea).sum

/-- `PDFRouter._analyze_image_content`'s `images_area_ratio`:
`total_images_area / total_page_area if total_page_area > 0 else 0`. -/
def images_area_ratio (d : Doc) : ℚ :=
  if 0 < imageSamplePageArea d then totalImagesArea d / imageSamplePageArea d else 0

/-- Pages sampled by the density computation in `identify_type`:
`pages_to_check = min(5, total_pages)`. -/
def densitySample (d : Doc) : List Page := d.pages.take (min 5 d.pages.length)

/-- `total_page_area` over the ≤ 5 sampled pages. -/
def sampledPageArea (d : Doc) : ℚ := ((densitySample d).map Page.rectArea).sum

/-- `total_text_area`: sum of the areas of the text blocks
(`block[6] == 0`) of the ≤ 5 sampled pages. -/
def sampledTextArea (d : Doc) : ℚ :=
  ((densitySample d).map
    (fun p => ((p.blocks.filter (fun b => b.blockType = 0)).map Block.rectArea).sum)).sum

/-- `text_density = (total_text_area / total_page_area) * 100`. -/
def textDensity (d : Doc) : ℚ := sampledTextArea d / sampledPageArea d * 100

/-- `PDFRouter.identify_type`.  The argument is `none` when
`fitz.open` (or any other step of the inspection) raises — the source
wraps the whole body in `try`/`except` and returns `"SCANNED"` in the
`except` branch. -/
def identify_type (doc : Option Doc) : String :=
  match doc with
  | none => "SCANNED"
  | some d =>
    if d.pages.length = 0 then "SCANNED"
    else if sampledPageArea d = 0 then "SCANNED"
    else if textDensity d < 2 then "SCANNED"
    else if 5 < textDensity d ∧ calculate_text_quality_score d < 3/10 then "SCANNED"
    else if 7/10 < images_area_ratio d then "SCANNED"
    else if 10 < textDensity d ∧ 2/5 < calculate_text_quality_score d then "NATIVE"
    else if 3 < textDensity d ∧ 1/2 < calculate_text_quality_score d then "NATIVE"
    else "SCANNED"

/-! ### Router lemmas -/

lemma identify_type_some (d : Doc) :
    identify_type (some d) =
      (if d.pages.length = 0 then "SCANNED"
       else if sampledPageArea d = 0 then "SCANNED"
       else if textDensity d < 2 then "SCANNED"
       else if 5 < textDensity d ∧ calculate_text_quality_score d < 3/10 then "SCANNED"
       else if 7/10 < images_area_ratio d then "SCANNED"
       else if 10 < textDensity d ∧ 2/5 < calculate_text_quality_score d then "NATIVE"
       else if 3 < textDensity d ∧ 1/2 < calculate_text_quality_score d then "NATIVE"
       else "SCANNED") := rfl

lemma countAlnum_le_length (s : String) : countAlnum s ≤ s.length := by
  show (s.data.filter isPyAlnum).length ≤ s.data.length
  exact List.length_filter_le _ _

lemma countSpaces_le_length (s : String) : countSpaces s ≤ s.length := by
  show (s.data.filter (fun c => c = ' ')).length ≤ s.data.length
  exact List.length_filter_le _ _

lemma qualityAlnumChars_le (d : Doc) : qualityAlnumChars d ≤ qualityTotalChars d := by
  unfold qualityAlnumChars qualityTotalChars
  exact List.sum_le_sum (fun p _ => countAlnum_le_length p.text)

lemma qualitySpaceChars_le (d : Doc) : qualitySpaceChars d ≤ qualityTotalChars d := by
  unfold qualitySpaceChars qualityTotalChars
  exact List.sum_le_sum (fun p _ => countSpaces_le_length p.text)

lemma qualitySample_take3 (d : Doc) :
    qualitySample ⟨d.pages.take 3⟩ = qualitySample d := by
  simp only [qualitySample, List.take_take, List.length_take]
  congr 1
  omega

/-! ### Claims about the classifier -/

/-- **C7**: the text-quality score is computed over at most the first 3
pages as `0.7 * (alnum/total) + 0.3 * (space/total)`, is `0` when the
total sampled character count is `0`, and always lies in `[0,1]`. -/
theorem C7_text_quality_score (d : Doc) :
    calculate_text_quality_score ⟨d.pages.take 3⟩ = calculate_text_quality_score d ∧
    (qualityTotalChars d = 0 → calculate_text_quality_score d = 0) ∧
    (qualityTotalChars d ≠ 0 →
      calculate_text_quality_score d =
        (7/10) * ((qualityAlnumChars d : ℚ) / qualityTotalChars d) +
        (3/10) * ((qualitySpaceChars d : ℚ) / qualityTotalChars d)) ∧
    0 ≤ calculate_text_quality_score d ∧ calculate_text_quality_score d ≤ 1 := by
  refine ⟨?_, ?_, ?_, ?_, ?_⟩
  · unfold calculate_text_quality_score qualityTotalChars qualityAlnumChars qualitySpaceChars
    rw [qualitySample_take3]
  · intro h
    unfold calculate_text_quality_score
    rw [if_pos h]
  · intro h
    unfold calculate_text_quality_score
    rw [if_neg h]
    ring
  · unfold calculate_text_quality_score
    split
    · exact le_refl 0
    · positivity
  · unfold calculate_text_quality_score
    split
    · exact zero_le_one
    · rename_i h
      have hT : (0 : ℚ) < qualityTotalChars d := by
        exact_mod_cast Nat.pos_of_ne_zero h
      have ha : (qualityAlnumChars d : ℚ) / qualityTotalChars d ≤ 1 := by
        rw [div_le_one hT]
        exact_mod_cast qualityAlnumChars_le d
      have hs : (qualitySpaceChars d : ℚ) / qualityTotalChars d ≤ 1 := by
        rw [div_le_one hT]
        exact_mod_cast qualitySpaceChars_le d
      have ha0 : (0:ℚ) ≤ (qualityAlnumChars d : ℚ) / qualityTotalChars d := by positivity
      have hs0 : (0:ℚ) ≤ (qualitySpaceChars d : ℚ) / qualityTotalChars d := by positivity
      nlinarith

/-- **C7 witness**: one page with text `"ab "` (2 alphanumeric characters,
1 space, 3 characters total) gives quality `0.7·(2/3) + 0.3·(1/3)`. -/
theorem C7_text_quality_score_witness :
    calculate_text_quality_score ⟨[⟨1, [], "ab ", []⟩]⟩ =
      (7/10) * ((2 : ℚ)/3) + (3/10) * ((1 : ℚ)/3) := by
  have h := (C7_text_quality_score ⟨[⟨1, [], "ab ", []⟩]⟩).2.2.1 (by decide)
  rw [h]
  have ha : qualityAlnumChars ⟨[⟨1, [], "ab ", []⟩]⟩ = 2 := rfl
  have hs : qualitySpaceChars ⟨[⟨1, [], "ab ", []⟩]⟩ = 1 := rfl
  have ht : qualityTotalChars ⟨[⟨1, [], "ab ", []⟩]⟩ = 3 := rfl
  rw [ha, hs, ht]
  norm_num

/-- **C5**: `identify_type` never raises: a document whose inspection
fails (modelled by `none`) yields the `SCANNED` fallback, the function
returns a verdict (`NATIVE` or `SCANNED`) on every inspectable document,
and an image whose bbox lookup raises contributes the 50 %-of-page-area
estimate. -/
theorem C5_never_raises :
    identify_type none = "SCANNED" ∧
    (∀ d : Doc, identify_type (some d) = "NATIVE" ∨ identify_type (some d) = "SCANNED") ∧
    (∀ pageArea : ℚ, imageArea pageArea ⟨none⟩ = pageArea * (1/2)) := by
  refine ⟨rfl, ?_, fun _ => rfl⟩
  intro d
  rw [identify_type_some]
  split_ifs <;> simp

/-- **C6**: zero pages, zero sampled page area, or zero sampled
characters all lead to `SCANNED`; in the last case the quality score is
`0` (so no ratio in the classifier ever divides by zero). -/
theorem C6_zero_guards :
    (∀ d : Doc, d.pages = [] → identify_type (some d) = "SCANNED") ∧
    (∀ d : Doc, sampledPageArea d = 0 → identify_type (some d) = "SCANNED") ∧
    (∀ d : Doc, qualityTotalChars d = 0 →
      calculate_text_quality_score d = 0 ∧ identify_type (some d) = "SCANNED") := by
  refine ⟨?_, ?_, ?_⟩
  · intro d h
    have hlen : d.pages.length = 0 := by simp [h]
    rw [identify_type_some, if_pos hlen]
  · intro d h
    rw [identify_type_some]
    split_ifs <;> rfl
  · intro d h
    have hq : calculate_text_quality_score d = 0 := by
      unfold calculate_text_quality_score
      rw [if_pos h]
    refine ⟨hq, ?_⟩
    rw [identify_type_some, hq]
    split_ifs with h1 h2 h3 h4 h5 h6 h7 <;>
      first
        | rfl
        | exact absurd h6.2 (by norm_num)
        | exact absurd h7.2 (by norm_num)

/-- **C6 witness**: the empty document has zero pages, zero sampled page
area and zero sampled characters, and is classified `SCANNED` with
quality score `0`. -/
theorem C6_zero_guards_witness :
    identify_type (some ⟨[]⟩) = "SCANNED" ∧ calculate_text_quality_score ⟨[]⟩ = 0 :=
  ⟨C6_zero_guards.1 ⟨[]⟩ rfl, (C6_zero_guards.2.2 ⟨[]⟩ rfl).1⟩

/-- **C1**: on a document that opens, has at least one page and positive
sampled page area, `identify_type` evaluates the five decision rules in
the source's fixed order with strict threshold comparisons, returning at
the first match and defaulting to `SCANNED`; each hypothesis of the form
`2 ≤ text_density` (etc.) makes explicit that equality at a threshold
does not fire the rule and falls through to the next one. -/
theorem C1_rule_cascade (d : Doc) (h1 : d.pages ≠ []) (h2 : 0 < sampledPageArea d) :
    (textDensity d < 2 → identify_type (some d) = "SCANNED") ∧
    (2 ≤ textDensity d → 5 < textDensity d → calculate_text_quality_score d < 3/10 →
      identify_type (some d) = "SCANNED") ∧
    (2 ≤ textDensity d → ¬(5 < textDensity d ∧ calculate_text_quality_score d < 3/10) →
      7/10 < images_area_ratio d → identify_type (some d) = "SCANNED") ∧
    (2 ≤ textDensity d → ¬(5 < textDensity d ∧ calculate_text_quality_score d < 3/10) →
      images_area_ratio d ≤ 7/10 → 10 < textDensity d → 2/5 < calculate_text_quality_score d →
      identify_type (some d) = "NATIVE") ∧
    (2 ≤ textDensity d → ¬(5 < textDensity d ∧ calculate_text_quality_score d < 3/10) →
      images_area_ratio d ≤ 7/10 →
      ¬(10 < textDensity d ∧ 2/5 < calculate_text_quality_score d) →
      3 < textDensity d → 1/2 < calculate_text_quality_score d →
      identify_type (some d) = "NATIVE") ∧
    (2 ≤ textDensity d → ¬(5 < textDensity d ∧ calculate_text_quality_score d < 3/10) →
      images_area_ratio d ≤ 7/10 →
      ¬(10 < textDensity d ∧ 2/5 < calculate_text_quality_score d) →
      ¬(3 < textDensity d ∧ 1/2 < calculate_text_quality_score d) →
      identify_type (some d) = "SCANNED") := by
  have hlen : ¬ d.pages.length = 0 := by
    simpa [List.length_eq_zero] using h1
  have harea : ¬ sampledPageArea d = 0 := h2.ne'
  refine ⟨?_, ?_, ?_, ?_, ?_, ?_⟩
  · intro hr1
    rw [identify_type_some, if_neg hlen, if_neg harea, if_pos hr1]
  · intro hge hr2a hr2b
    rw [identify_type_some, if_neg hlen, if_neg harea, if_neg (not_lt.mpr hge), if_pos ⟨hr2a, hr2b⟩]
  · intro hge hn2 hr3
    rw [identify_type_some, if_neg hlen, if_neg harea, if_neg (not_lt.mpr hge), if_neg hn2, if_pos hr3]
  · intro hge hn2 hr3 hr4a hr4b
    rw [identify_type_some, if_neg hlen, if_neg harea, if_neg (not_lt.mpr hge), if_neg hn2,
      if_neg (not_lt.mpr hr3), if_pos ⟨hr4a, hr4b⟩]
  · intro hge hn2 hr3 hn4 hr5a hr5b
    rw [identify_type_some, if_neg hlen, if_neg harea, if_neg (not_lt.mpr hge), if_neg hn2,
      if_neg (not_lt.mpr hr3), if_neg hn4, if_pos ⟨hr5a, hr5b⟩]
  · intro hge hn2 hr3 hn4 hn5
    rw [identify_type_some, if_neg hlen, if_neg harea, if_neg (not_lt.mpr hge), if_neg hn2,
      if_neg (not_lt.mpr hr3), if_neg hn4, if_neg hn5]

/-- **C1 witness**: one page of area 100 with a single text block of area
12 (density 12 > 10) and text `"Hello world abc"` (quality 97/150 > 0.4)
fires rule 4 and yields `NATIVE`. -/
theorem C1_rule_cascade_witness :
    identify_type (some ⟨[⟨100, [⟨12, 0⟩], "Hello world abc", []⟩]⟩) = "NATIVE" := by
  have hd : textDensity ⟨[⟨100, [⟨12, 0⟩], "Hello world abc", []⟩]⟩ = 12 := by
    simp [textDensity, sampledTextArea, sampledPageArea, densitySample]
  have hq : calculate_text_quality_score ⟨[⟨100, [⟨12, 0⟩], "Hello world abc", []⟩]⟩ =
      97/150 := by
    unfold calculate_text_quality_score
    have ht : qualityTotalChars ⟨[⟨100, [⟨12, 0⟩], "Hello world abc", []⟩]⟩ = 15 := rfl
    have ha : qualityAlnumChars ⟨[⟨100, [⟨12, 0⟩], "Hello world abc", []⟩]⟩ = 13 := rfl
    have hs : qualitySpaceChars ⟨[⟨100, [⟨12, 0⟩], "Hello world abc", []⟩]⟩ = 2 := rfl
    rw [ht, ha, hs]
    norm_num
  have hr : images_area_ratio ⟨[⟨100, [⟨12, 0⟩], "Hello world abc", []⟩]⟩ = 0 := by
    simp [images_area_ratio, totalImagesArea, imageSamplePageArea, qualitySample]
  refine (C1_rule_cascade ⟨[⟨100, [⟨12, 0⟩], "Hello world abc", []⟩]⟩
      (List.cons_ne_nil _ _) ?_).2.2.2.1 ?_ ?_ ?_ ?_ ?_
  · show (0:ℚ) < sampledPageArea _
    simp [sampledPageArea, densitySample]
  · rw [hd]; norm_num
  · rw [hd, hq]; norm_num
  · rw [hr]; norm_num
  · rw [hd]; norm_num
  · rw [hq]; norm_num

/-! ## Post-processor: `src/vibe_parser/utils/postprocessing.py`

All functions operate on `List Char` and are wrapped into `String` at the
edges. -/

/-! `re.sub(r'\s+', ' ', text)`: replace every maximal run of whitespace
characters by a single space (`collapseAfter` is the scanner state inside
a run whose first character was already replaced). -/

mutual
def collapseWs : List Char → List Char
  | [] => []
  | c :: rest => if isPySpace c then ' ' :: collapseAfter rest else c :: collapseWs rest
def collapseAfter : List Char → List Char
  | [] => []
  | c :: rest => if isPySpace c then collapseAfter rest else c :: collapseWs rest
end

/-- Python `str.strip()`: drop leading and trailing whitespace. -/
def pyStripL (l : List Char) : List Char :=
  ((l.dropWhile isPySpace).reverse.dropWhile isPySpace).reverse

/-- `paragraph.strip()` on strings. -/
def pyStrip (s : String) : String := String.mk (pyStripL s.data)

/-- Python `text.replace(old, new)` for a single-character `old`. -/
def replaceChar (old : Char) (new : List Char) : List Char → List Char
  | [] => []
  | c :: rest => (if c = old then new else [c]) ++ replaceChar old new rest

/-- The fixed OCR-artifact substitution table of `clean_text`, applied in
the source dict's insertion order: `'|' → "I"`, `'ﬁ' → "fi"`,
`'ﬂ' → "fl"`, `'' → "•"`, `'•' → "•"` (the identity),
`'–' → "-"`, `'—' → "--"`. -/
def applyReplacements (l : List Char) : List Char :=
  replaceChar '—' ['-', '-']
    (replaceChar '–' ['-']
      (replaceChar '•' ['•']
        (replaceChar '' ['•']
          (replaceChar 'ﬂ' ['f', 'l']
            (replaceChar 'ﬁ' ['f', 'i']
              (replaceChar '|' ['I'] l))))))

/-- A character matching the regex class `[^\w\s]`. -/
def isSpecial (c : Char) : Bool := !isWordChar c && !isPySpace c

/-- `re.sub(r'\s[^\w\s]{1,2}\s', ' ', text)`: scan left to right; at a
whitespace character try the greedy two-character token first, then the
one-character token; a match (including its trailing whitespace) is
replaced by one space and scanning resumes after the matched region;
otherwise move one character forward. -/
def removeIsolated : List Char → List Char
  | [] => []
  | [c] => [c]
  | [c, x] => c :: removeIsolated [x]
  | [c, x, y] =>
    if isPySpace c && (isSpecial x && isPySpace y) then [' ']
    else c :: removeIsolated [x, y]
  | c :: x :: y :: d :: t =>
    if isPySpace c then
      if isSpecial x && isSpecial y && isPySpace d then ' ' :: removeIsolated t
      else if isSpecial x && isPySpace y then ' ' :: removeIsolated (d :: t)
      else c :: removeIsolated (x :: y :: d :: t)
    else c :: removeIsolated (x :: y :: d :: t)

/-- `text.replace('\r\n', '\n')` (left-to-right, non-overlapping). -/
def replaceCRLF : List Char → List Char
  | '\r' :: '\n' :: t => '\n' :: replaceCRLF t
  | c :: t => c :: replaceCRLF t
  | [] => []

/-- `text.replace('\r\n', '\n').replace('\r', '\n')`. -/
def normalizeLineEndings (l : List Char) : List Char :=
  (replaceCRLF l).map (fun c => if c = '\r' then '\n' else c)

/-- `TextPostProcessor.clean_text`. -/
def clean_text (s : String) : String :=
  if s.isEmpty then ""
  else String.mk
    (normalizeLineEndings (removeIsolated (applyReplacements (pyStripL (collapseWs s.data)))))

/-! ### Sections (`structure_text` / `_identify_sections`) -/

def isUpperAZ (c : Char) : Bool := 'A' ≤ c && c ≤ 'Z'

def isAsciiLetter (c : Char) : Bool := ('A' ≤ c && c ≤ 'Z') || ('a' ≤ c && c ≤ 'z')

/-- Python regex `\d`, modelled over ASCII. -/
def isDigitChar (c : Char) : Bool := '0' ≤ c && c ≤ '9'

/-- Full match of `[A-Z][A-Za-z\s]{0,50}[.:]?` against the whole list
(`'.'`/`':'` are outside the bracket class, so a trailing one can only be
consumed by the optional group). -/
def fullPat1 : List Char → Bool
  | [] => false
  | c :: rest =>
    isUpperAZ c &&
      (let mid := if rest.getLast? == some '.' || rest.getLast? == some ':'
                  then rest.dropLast else rest
       decide (mid.length ≤ 50) && mid.all (fun x => isAsciiLetter x || isPySpace x))

/-- `re.match(r'^[A-Z][A-Za-z\s]{0,50}[.:]?$', s)`: `$` also matches just
before a newline that ends the string. -/
def matchPat1 (l : List Char) : Bool :=
  fullPat1 l || (l.getLast? == some '\n' && fullPat1 l.dropLast)

/-- `re.match(r'^\d+\.\s+[A-Z].*$', s)`: a digit run, a literal dot, a
whitespace run, an upper-case letter, then `.*` runs to the end of the
line and `$` requires the string (or all but a final newline) to end
there. -/
def matchPat2 (l : List Char) : Bool :=
  let ds := l.takeWhile isDigitChar
  let r1 := l.dropWhile isDigitChar
  !ds.isEmpty &&
    match r1 with
    | '.' :: r2 =>
      let sp := r2.takeWhile isPySpace
      let r3 := r2.dropWhile isPySpace
      !sp.isEmpty &&
        match r3 with
        | u :: r4 =>
          isUpperAZ u &&
            (let r5 := r4.dropWhile (fun c => c ≠ '\n')
             r5.isEmpty || r5 == ['\n'])
        | [] => false
    | _ => false

/-- `re.match(r'^[A-Z].*\n={3,}$', s)`: an upper-case letter, the rest of
the first line, a newline, then at least three `=` reaching the end (or
all but a final newline). -/
def matchPat3 (l : List Char) : Bool :=
  match l with
  | u :: r =>
    isUpperAZ u &&
      (match r.dropWhile (fun c => c ≠ '\n') with
       | '\n' :: r3 =>
         let eqs := r3.takeWhile (fun c => c = '=')
         let r4 := r3.dropWhile (fun c => c = '=')
         decide (3 ≤ eqs.length) && (r4.isEmpty || r4 == ['\n'])
       | _ => false)
  | [] => false

/-- The heading test of `_identify_sections`:
`re.match(pattern, paragraph.strip())` over the three heading patterns. -/
def is_heading (p : String) : Bool :=
  let s := pyStripL p.data
  matchPat1 s || matchPat2 s || matchPat3 s

structure Section where
  title : String
  content : List String
deriving DecidableEq

/-- The loop of `_identify_sections`, carrying `current_section` as the
pair `(title, content)`; a section with empty accumulated content is
dropped rather than emitted, and the final section is emitted only if
non-empty. -/
def identify_sections_go : List String → String → List String → List Section
  | [], title, content => if content.isEmpty then [] else [⟨title, content⟩]
  | p :: ps, title, content =>
    if is_heading p then
      (if content.isEmpty then [] else [⟨title, content⟩]) ++
        identify_sections_go ps (pyStrip p) []
    else identify_sections_go ps title (content ++ [p])

/-- `TextPostProcessor._identify_sections`. -/
def identify_sections (paragraphs : List String) : List Section :=
  identify_sections_go paragraphs "Introduction" []

/-! ### Sentences (`_simple_sentence_splitting`) -/

def isSentSep (c : Char) : Bool := c = '.' || c = '!' || c = '?'

/-! `re.split(r'[.!?]+', text)`: split on maximal runs of sentence
terminators, keeping the (possibly empty) parts between them
(`splitSepsSkip` is the scanner state inside a terminator run). -/

mutual
def splitSepsGo (acc : List Char) : List Char → List (List Char)
  | [] => [acc.reverse]
  | c :: rest =>
    if isSentSep c then acc.reverse :: splitSepsSkip rest else splitSepsGo (c :: acc) rest
def splitSepsSkip : List Char → List (List Char)
  | [] => [[]]
  | c :: rest => if isSentSep c then splitSepsSkip rest else splitSepsGo [c] rest
end

/-- `TextPostProcessor._simple_sentence_splitting`: split each paragraph
on terminator runs, strip each part, keep parts longer than 10
characters, re-terminated with a literal period. -/
def simple_sentence_splitting (paragraphs : List String) : List String :=
  (paragraphs.map (fun para =>
    (splitSepsGo [] para.data).filterMap (fun part =>
      let cleaned := pyStripL part
      if 10 < cleaned.length then some (String.mk (cleaned ++ ['.'])) else none))).flatten

/-! ### `structure_text` -/

/-- `text.split('\n\n')`: split on the two-character separator,
left-to-right, non-overlapping. -/
def splitNNGo (acc : List Char) : List Char → List (List Char)
  | '\n' :: '\n' :: rest => acc.reverse :: splitNNGo [] rest
  | c :: rest => splitNNGo (c :: acc) rest
  | [] => [acc.reverse]

/-- `[p.strip() for p in text.split('\n\n') if p.strip()]`. -/
def structureParagraphs (text : String) : List String :=
  ((splitNNGo [] text.data).map (fun p => String.mk (pyStripL p))).filter (fun p => p ≠ "")

structure TextStats where
  char_count : ℕ
  paragraph_count : ℕ
  sentence_count : ℕ
  section_count : ℕ
deriving DecidableEq

structure StructuredText where
  raw : String
  sections : List Section
  paragraphs : List String
  sentences : List String
  stats : Option TextStats
deriving DecidableEq

/-- `TextPostProcessor.structure_text`.  The `"stats"` key exists only in
the dict returned by the non-empty branch; `stats = none` models the key
being absent on the empty branch.  Sentence extraction first tries NLTK's
`sent_tokenize` (an external library, out of scope here); we model the
repository's own fallback splitter. -/
def structure_text (text : String) : StructuredText :=
  if text.isEmpty then ⟨"", [], [], [], none⟩
  else
    let paragraphs := structureParagraphs text
    let sections := identify_sections paragraphs
    let sentences := simple_sentence_splitting paragraphs
    ⟨text, sections, paragraphs, sentences,
      some ⟨text.length, paragraphs.length, sentences.length, sections.length⟩⟩

/-! ### Keywords (`extract_keywords`) -/

/-- `text.lower()`, modelled over ASCII. -/
def pyLower (s : String) : String := String.mk (s.data.map Char.toLower)

/-- Maximal runs of characters satisfying `p` (the accumulator holds the
current run reversed). -/
def runsGo (p : Char → Bool) (acc : List Char) : List Char → List (List Char)
  | [] => if acc.isEmpty then [] else [acc.reverse]
  | c :: rest =>
    if p c then runsGo p (c :: acc) rest
    else (if acc.isEmpty then [] else [acc.reverse]) ++ runsGo p [] rest

/-- `re.findall(r'\b[a-zA-Z]{3,}\b', text.lower())`: the maximal
word-character runs of the lower-cased text that consist purely of
letters and have length at least 3 (a letter run adjacent to a digit or
underscore has no word boundary next to it, so no shorter sub-run can
match). -/
def findKeywordTokens (s : String) : List String :=
  ((runsGo isWordChar [] (pyLower s).data).filter
    (fun r => decide (3 ≤ r.length) && r.all isAsciiLetter)).map (fun r => String.mk r)

/-- The stopword set: the source prefers `nltk.corpus.stopwords`
(external, out of scope) and falls back to this fixed set, which is what
we model. -/
def stop_words : List String :=
  ["the", "a", "an", "and", "or", "but", "in", "on", "at", "to", "for",
   "of", "with", "by", "is", "are", "was", "were", "be", "been", "have",
   "has", "had", "do", "does", "did", "will", "would", "could", "should",
   "may", "might", "must", "can"]

/-- `filtered_words = [word for word in words if word not in stop_words]`. -/
def filteredWords (s : String) : List String :=
  (findKeywordTokens s).filter (fun w => !stop_words.contains w)

/-- First-occurrence deduplication with a structural fuel argument (so
that it evaluates by kernel reduction); filtering only shortens the list,
so fuel equal to the list length never runs out. -/
def firstUniqFuel : ℕ → List String → List String
  | _, [] => []
  | 0, _ :: _ => []
  | n + 1, w :: ws => w :: firstUniqFuel n (ws.filter (fun x => x ≠ w))

/-- First-occurrence deduplication: the key iteration order of a
`collections.Counter` built from the list. -/
def firstUniq (ws : List String) : List String := firstUniqFuel ws.length ws

/-- The ranking used by `Counter.most_common`: stable descending sort by
count.  On the deduplicated key list all keys are distinct, so the stable
sort equals the unique permutation ordered by the strict lexicographic
key (count descending, then first-occurrence index ascending); we realise
it with `List.insertionSort` under this total preorder. -/
def rankRel (ws : List String) (a b : String) : Prop :=
  ws.count b < ws.count a ∨ (ws.count a = ws.count b ∧ ws.indexOf a ≤ ws.indexOf b)

instance rankRelDecidable (ws : List String) : DecidableRel (rankRel ws) := fun _ _ => by
  unfold rankRel
  infer_instance

/-- `Counter(ws).most_common(k)` (keys only). -/
def most_common (ws : List String) (k : ℕ) : List String :=
  (List.insertionSort (rankRel ws) (firstUniq ws)).take k

/-- `TextPostProcessor.extract_keywords`. -/
def extract_keywords (text : String) (num_keywords : ℕ) : List String :=
  most_common (filteredWords text) num_keywords

/-! ### Quality (`assess_quality`) -/

/-- Python `str.split()` with no separator: the maximal non-whitespace
runs, with no empty pieces. -/
def pySplitWs (s : String) : List String :=
  (runsGo (fun c => !isPySpace c) [] s.data).map (fun r => String.mk r)

/-- Python `round(x, 0)` tie handling: round half to even. -/
def roundHalfEven (q : ℚ) : ℤ :=
  if q - ⌊q⌋ < 1/2 then ⌊q⌋
  else if 1/2 < q - ⌊q⌋ then ⌊q⌋ + 1
  else if Even ⌊q⌋ then ⌊q⌋ else ⌊q⌋ + 1

/-- Python `round(x, 2)`. -/
def round2 (q : ℚ) : ℚ := (roundHalfEven (q * 100) : ℚ) / 100

structure QualityMetrics where
  readability : ℚ
  coherence : ℚ
  completeness : ℚ
  overall : Option ℚ
deriving DecidableEq

/-- The unrounded readability sub-score:
`max(0, 1 - |chars/len(words) - 5| / 10)`, `0` when there are no words. -/
def rawReadability (text : String) : ℚ :=
  if (pySplitWs text).length = 0 then 0
  else max 0 (1 - |(text.length : ℚ) / (pySplitWs text).length - 5| / 10)

/-- The unrounded coherence sub-score, using the fallback sentence
splitter on the whole text; `0` when there are no sentences. -/
def rawCoherence (text : String) : ℚ :=
  if (simple_sentence_splitting [text]).length = 0 then 0
  else
    max 0 (1 -
      |(((simple_sentence_splitting [text]).map (fun s => (pySplitWs s).length)).sum : ℚ) /
          (simple_sentence_splitting [text]).length - 20| / 50)

/-- `[p for p in text.split('\n\n') if p.strip()]` as used by
`assess_quality`: the source filters on `p.strip()` but keeps `p` itself,
so paragraph lengths include surrounding whitespace. -/
def qualityParagraphs (text : String) : List (List Char) :=
  (splitNNGo [] text.data).filter (fun p => !(pyStripL p).isEmpty)

/-- The unrounded completeness sub-score; `0` when there are no
paragraphs. -/
def rawCompleteness (text : String) : ℚ :=
  if (qualityParagraphs text).length = 0 then 0
  else min 1 (((((qualityParagraphs text).map List.length).sum : ℚ) /
    (qualityParagraphs text).length) / 200)

/-- `TextPostProcessor.assess_quality`.  On the empty string the source
returns a dict without the `"overall"` key (`overall = none`); otherwise
each reported value is rounded to 2 decimals and `overall` is the rounded
unweighted mean of the three unrounded sub-scores. -/
def assess_quality (text : String) : QualityMetrics :=
  if text.isEmpty then ⟨0, 0, 0, none⟩
  else
    ⟨round2 (rawReadability text), round2 (rawCoherence text),
     round2 (rawCompleteness text),
     some (round2 ((rawReadability text + rawCoherence text + rawCompleteness text) / 3))⟩

/-! ### Post-processor lemmas -/

lemma string_isEmpty_false {s : String} (h : s ≠ "") : s.isEmpty = false := by
  rw [Bool.eq_false_iff]
  intro hc
  exact h ((String.isEmpty_iff s).mp hc)

lemma roundHalfEven_nonneg {q : ℚ} (h0 : 0 ≤ q) : 0 ≤ roundHalfEven q := by
  have hf : (0 : ℤ) ≤ ⌊q⌋ := Int.floor_nonneg.mpr h0
  unfold roundHalfEven
  split_ifs <;> omega

lemma roundHalfEven_le {q : ℚ} {n : ℤ} (h1 : q ≤ n) : roundHalfEven q ≤ n := by
  have hf : ⌊q⌋ ≤ n := by
    have := Int.floor_le_floor h1
    simpa using this
  have hkey : (⌊q⌋ : ℚ) + 1/2 ≤ q → ⌊q⌋ + 1 ≤ n := by
    intro hhalf
    have hlt : (⌊q⌋ : ℚ) < n := lt_of_lt_of_le (by linarith) h1
    exact_mod_cast Int.add_one_le_of_lt (by exact_mod_cast hlt)
  unfold roundHalfEven
  split_ifs with ha hb hc
  · exact hf
  · exact hkey (by linarith)
  · exact hf
  · exact hkey (by linarith)

lemma round2_mem {q : ℚ} (h0 : 0 ≤ q) (h1 : q ≤ 1) : 0 ≤ round2 q ∧ round2 q ≤ 1 := by
  have hn : 0 ≤ roundHalfEven (q * 100) := roundHalfEven_nonneg (by linarith)
  have hl : roundHalfEven (q * 100) ≤ (100 : ℤ) := roundHalfEven_le (by push_cast; linarith)
  unfold round2
  constructor
  · positivity
  · rw [div_le_one (by norm_num)]
    exact_mod_cast hl

lemma rawReadability_mem (s : String) : 0 ≤ rawReadability s ∧ rawReadability s ≤ 1 := by
  unfold rawReadability
  split
  · exact ⟨le_refl 0, zero_le_one⟩
  · refine ⟨le_max_left _ _, max_le zero_le_one ?_⟩
    have h : 0 ≤ |(s.length : ℚ) / (pySplitWs s).length - 5| / 10 := by positivity
    linarith

lemma rawCoherence_mem (s : String) : 0 ≤ rawCoherence s ∧ rawCoherence s ≤ 1 := by
  unfold rawCoherence
  split
  · exact ⟨le_refl 0, zero_le_one⟩
  · refine ⟨le_max_left _ _, max_le zero_le_one ?_⟩
    have h : (0:ℚ) ≤
        |(((simple_sentence_splitting [s]).map (fun t => (pySplitWs t).length)).sum : ℚ) /
            (simple_sentence_splitting [s]).length - 20| / 50 := by positivity
    linarith

lemma rawCompleteness_mem (s : String) : 0 ≤ rawCompleteness s ∧ rawCompleteness s ≤ 1 := by
  unfold rawCompleteness
  split
  · exact ⟨le_refl 0, zero_le_one⟩
  · refine ⟨le_min zero_le_one ?_, min_le_left _ _⟩
    positivity

/-! ### Claims about `clean_text` (C2, C10) -/

/-- **C2**: the claimed idempotence of `clean_text` fails on the code: the
isolated-token pass `re.sub(r'\s[^\w\s]{1,2}\s', ' ', ·)` is a single
non-overlapping scan, and its own replacement text can recreate the
pattern it removes.  On `"a . . a"` the first application removes only the
first isolated dot (the second dot's surrounding space was consumed by
the first match), so a second application still finds work to do. -/
theorem C2_clean_text_not_idempotent :
    clean_text "a . . a" = "a . a" ∧
    clean_text (clean_text "a . . a") = "a a" ∧
    clean_text (clean_text "a . . a") ≠ clean_text "a . . a" := by
  refine ⟨by decide, by decide, by decide⟩

/-! ### Claims about `structure_text` (C4) -/

/-- **C4 counterexample**: on the empty string the source returns
`{"raw": "", "sections": [], "paragraphs": [], "sentences": []}` with no
`"stats"` key at all, so the claim that the stats counts are all zero is
false — there are no stats counts. -/
theorem C4_structure_text_empty_counterexample :
    (structure_text "").stats ≠ some ⟨0, 0, 0, 0⟩ := by decide

/-- **C4 (amended)**: `structure_text` applied to the empty string
returns, without failing, a structure whose paragraphs, sections and
sentences are all empty and whose `stats` record is absent (rather than
present with zero counts). -/
theorem C4_structure_text_empty :
    structure_text "" = ⟨"", [], [], [], none⟩ := rfl

/-! ### Claims about `assess_quality` (C3) -/

/-- **C3 counterexample**: on the empty string the source returns a dict
with only `readability`, `coherence` and `completeness` — the `overall`
field is absent, contradicting the claim that every input yields all four
fields. -/
theorem C3_assess_quality_empty_counterexample :
    (assess_quality "").overall = none := rfl

/-- **C3 (amended)**: on the empty string `assess_quality` returns the
three sub-scores, all zero, and no `overall` field; on non-empty input it
returns all four fields, each reported value is the 2-decimal rounding of
the corresponding unrounded score, `overall` is the rounded unweighted
mean of the three unrounded sub-scores (rounding is applied only to the
final reported values), and every reported value lies in `[0,1]`. -/
theorem C3_assess_quality_fields (s : String) :
    (s = "" → assess_quality s = ⟨0, 0, 0, none⟩) ∧
    (s ≠ "" →
      assess_quality s =
        ⟨round2 (rawReadability s), round2 (rawCoherence s), round2 (rawCompleteness s),
          some (round2 ((rawReadability s + rawCoherence s + rawCompleteness s) / 3))⟩) ∧
    (0 ≤ (assess_quality s).readability ∧ (assess_quality s).readability ≤ 1) ∧
    (0 ≤ (assess_quality s).coherence ∧ (assess_quality s).coherence ≤ 1) ∧
    (0 ≤ (assess_quality s).completeness ∧ (assess_quality s).completeness ≤ 1) ∧
    (∀ q ∈ (assess_quality s).overall, 0 ≤ q ∧ q ≤ 1) := by
  have hmean : 0 ≤ (rawReadability s + rawCoherence s + rawCompleteness s) / 3 ∧
      (rawReadability s + rawCoherence s + rawCompleteness s) / 3 ≤ 1 := by
    have h1 := rawReadability_mem s
    have h2 := rawCoherence_mem s
    have h3 := rawCompleteness_mem s
    constructor <;> [linarith; linarith]
  refine ⟨?_, ?_, ?_, ?_, ?_, ?_⟩
  · intro h
    subst h
    rfl
  · intro h
    unfold assess_quality
    rw [string_isEmpty_false h]
    simp
  · by_cases h : s.isEmpty
    · have hs : s = "" := (String.isEmpty_iff s).mp h
      subst hs
      exact ⟨le_refl 0, zero_le_one⟩
    · rw [Bool.not_eq_true] at h
      simp only [assess_quality, h, Bool.false_eq_true, if_false]
      exact round2_mem (rawReadability_mem s).1 (rawReadability_mem s).2
  · by_cases h : s.isEmpty
    · have hs : s = "" := (String.isEmpty_iff s).mp h
      subst hs
      exact ⟨le_refl 0, zero_le_one⟩
    · rw [Bool.not_eq_true] at h
      simp only [assess_quality, h, Bool.false_eq_true, if_false]
      exact round2_mem (rawCoherence_mem s).1 (rawCoherence_mem s).2
  · by_cases h : s.isEmpty
    · have hs : s = "" := (String.isEmpty_iff s).mp h
      subst hs
      exact ⟨le_refl 0, zero_le_one⟩
    · rw [Bool.not_eq_true] at h
      simp only [assess_quality, h, Bool.false_eq_true, if_false]
      exact round2_mem (rawCompleteness_mem s).1 (rawCompleteness_mem s).2
  · by_cases h : s.isEmpty
    · have hs : s = "" := (String.isEmpty_iff s).mp h
      subst hs
      intro q hq
      have hnone : (assess_quality "").overall = none := rfl
      rw [hnone] at hq
      exact absurd hq (by simp)
    · rw [Bool.not_eq_true] at h
      simp only [assess_quality, h, Bool.false_eq_true, if_false]
      intro q hq
      have hq2 : q = round2 ((rawReadability s + rawCoherence s + rawCompleteness s) / 3) := by
        simpa [eq_comm] using hq
      subst hq2
      exact round2_mem hmean.1 hmean.2

/-- **C3 witness**: on the non-empty all-whitespace input `" "` the
amended statement evaluates to the all-zero metrics with an `overall`
field present. -/
theorem C3_assess_quality_fields_witness :
    assess_quality " " =
      ⟨round2 (rawReadability " "), round2 (rawCoherence " "), round2 (rawCompleteness " "),
        some (round2 ((rawReadability " " + rawCoherence " " + rawCompleteness " ") / 3))⟩ :=
  (C3_assess_quality_fields " ").2.1 (by decide)

/-! ### Claims about `_identify_sections` (C9) -/

lemma identify_sections_go_content :
    ∀ (ps : List String) (t : String) (c : List String),
      ∀ sec ∈ identify_sections_go ps t c, sec.content ≠ [] := by
  intro ps
  induction ps with
  | nil =>
    intro t c sec hsec
    simp only [identify_sections_go] at hsec
    split at hsec
    · simp at hsec
    · rename_i hc
      simp only [List.mem_singleton] at hsec
      subst hsec
      intro hnil
      exact hc (List.isEmpty_iff.mpr hnil)
  | cons p ps ih =>
    intro t c sec hsec
    simp only [identify_sections_go] at hsec
    split at hsec
    · rw [List.mem_append] at hsec
      rcases hsec with hsec | hsec
      · split at hsec
        · simp at hsec
        · rename_i hc
          simp only [List.mem_singleton] at hsec
          subst hsec
          intro hnil
          exact hc (List.isEmpty_iff.mpr hnil)
      · exact ih _ _ _ hsec
    · exact ih _ _ _ hsec

lemma identify_sections_go_titles :
    ∀ (ps : List String) (t : String) (c : List String),
      ∀ sec ∈ identify_sections_go ps t c,
        sec.title = t ∨ ∃ p ∈ ps, is_heading p = true ∧ sec.title = pyStrip p := by
  intro ps
  induction ps with
  | nil =>
    intro t c sec hsec
    simp only [identify_sections_go] at hsec
    split at hsec
    · simp at hsec
    · simp only [List.mem_singleton] at hsec
      subst hsec
      exact Or.inl rfl
  | cons p ps ih =>
    intro t c sec hsec
    simp only [identify_sections_go] at hsec
    split at hsec
    · rename_i hp
      rw [List.mem_append] at hsec
      rcases hsec with hsec | hsec
      · split at hsec
        · simp at hsec
        · simp only [List.mem_singleton] at hsec
          subst hsec
          exact Or.inl rfl
      · rcases ih _ _ _ hsec with ht | ⟨q, hq, hqh, hqt⟩
        · exact Or.inr ⟨p, List.mem_cons_self _ _, hp, ht⟩
        · exact Or.inr ⟨q, List.mem_cons_of_mem _ hq, hqh, hqt⟩
    · rcases ih _ _ _ hsec with ht | ⟨q, hq, hqh, hqt⟩
      · exact Or.inl ht
      · exact Or.inr ⟨q, List.mem_cons_of_mem _ hq, hqh, hqt⟩

lemma identify_sections_go_head :
    ∀ (ps : List String) (t : String) (c : List String),
      c ++ ps.takeWhile (fun p => !is_heading p) ≠ [] →
      (identify_sections_go ps t c).head? =
        some ⟨t, c ++ ps.takeWhile (fun p => !is_heading p)⟩ := by
  intro ps
  induction ps with
  | nil =>
    intro t c hne
    simp only [List.takeWhile_nil, List.append_nil] at hne ⊢
    simp only [identify_sections_go]
    rw [if_neg (fun hemp => hne (List.isEmpty_iff.mp hemp))]
    rfl
  | cons p ps ih =>
    intro t c hne
    by_cases hp : is_heading p
    · have htw : (p :: ps).takeWhile (fun q => !is_heading q) = [] := by
        simp [List.takeWhile_cons, hp]
      rw [htw] at hne ⊢
      simp only [List.append_nil] at hne ⊢
      simp only [identify_sections_go, if_pos hp]
      rw [if_neg (fun hemp => hne (List.isEmpty_iff.mp hemp))]
      rfl
    · have htw : (p :: ps).takeWhile (fun q => !is_heading q) =
          p :: ps.takeWhile (fun q => !is_heading q) := by
        simp [List.takeWhile_cons, hp]
      rw [htw]
      simp only [identify_sections_go, if_neg hp]
      have := ih t (c ++ [p]) (by simp)
      rw [this]
      simp

/-- **C9**: in `structure_text`'s sectioning, every returned section has
non-empty content (empty-content sections are never emitted); the
paragraphs before the first heading-like paragraph form the head section
titled `"Introduction"`; and every section title is either
`"Introduction"` or the stripped text of a heading-like paragraph of the
input, which starts its own section. -/
theorem C9_identify_sections (paragraphs : List String) :
    (∀ sec ∈ identify_sections paragraphs, sec.content ≠ []) ∧
    (paragraphs.takeWhile (fun p => !is_heading p) ≠ [] →
      (identify_sections paragraphs).head? =
        some ⟨"Introduction", paragraphs.takeWhile (fun p => !is_heading p)⟩) ∧
    (∀ sec ∈ identify_sections paragraphs,
      sec.title = "Introduction" ∨
        ∃ p ∈ paragraphs, is_heading p = true ∧ sec.title = pyStrip p) := by
  refine ⟨fun sec h => identify_sections_go_content _ _ _ sec h, fun h => ?_,
    fun sec h => identify_sections_go_titles _ _ _ sec h⟩
  have := identify_sections_go_head paragraphs "Introduction" [] (by simpa using h)
  simpa [identify_sections] using this

/-- **C9 witness**: on `["alpha body text", "HEADING", "beta"]` the first
paragraph is no heading and `"HEADING"` is, so the result starts with the
`"Introduction"` section holding exactly the pre-heading paragraph, and
the second section's title comes from the heading. -/
theorem C9_identify_sections_witness :
    (identify_sections ["alpha body text", "HEADING", "beta"]).head? =
      some ⟨"Introduction", ["alpha body text"]⟩ ∧
    (⟨"HEADING", ["beta"]⟩ : Section).content ≠ [] := by
  constructor
  · have h := (C9_identify_sections ["alpha body text", "HEADING", "beta"]).2.1 (by decide)
    rw [h]
    have htw : (["alpha body text", "HEADING", "beta"] : List String).takeWhile
        (fun p => !is_heading p) = ["alpha body text"] := by decide
    rw [htw]
  · exact (C9_identify_sections ["alpha body text", "HEADING", "beta"]).1
      ⟨"HEADING", ["beta"]⟩ (by decide)

/-! ### Claims about `clean_text` whitespace (C10) -/

lemma collapse_chars (l : List Char) :
    (∀ c ∈ collapseWs l, c = ' ' ∨ isPySpace c = false) ∧
    (∀ c ∈ collapseAfter l, c = ' ' ∨ isPySpace c = false) := by
  induction l with
  | nil => simp [collapseWs, collapseAfter]
  | cons a t ih =>
    constructor
    · intro c hc
      rw [collapseWs] at hc
      split at hc
      · rcases List.mem_cons.mp hc with h | h
        · exact Or.inl h
        · exact ih.2 c h
      · rcases List.mem_cons.mp hc with h | h
        · subst h
          rename_i ha
          exact Or.inr (by simpa using ha)
        · exact ih.1 c h
    · intro c hc
      rw [collapseAfter] at hc
      split at hc
      · exact ih.2 c hc
      · rcases List.mem_cons.mp hc with h | h
        · subst h
          rename_i ha
          exact Or.inr (by simpa using ha)
        · exact ih.1 c h

lemma pyStripL_subset {l : List Char} : ∀ c ∈ pyStripL l, c ∈ l := by
  intro c hc
  unfold pyStripL at hc
  rw [List.mem_reverse] at hc
  have h1 := (List.dropWhile_sublist (l := (l.dropWhile isPySpace).reverse)
    (p := isPySpace)).mem hc
  rw [List.mem_reverse] at h1
  exact (List.dropWhile_sublist _).mem h1

lemma replaceChar_pred {P : Char → Prop} {old : Char} {new : List Char} {l : List Char}
    (hl : ∀ c ∈ l, P c) (hnew : ∀ c ∈ new, P c) : ∀ c ∈ replaceChar old new l, P c := by
  induction l with
  | nil => simp [replaceChar]
  | cons a t ih =>
    intro c hc
    rw [replaceChar, List.mem_append] at hc
    rcases hc with hc | hc
    · split at hc
      · exact hnew c hc
      · rw [List.mem_singleton] at hc
        exact hc ▸ hl a (List.mem_cons_self _ _)
    · exact ih (fun x hx => hl x (List.mem_cons_of_mem _ hx)) c hc

lemma applyReplacements_pred {P : Char → Prop} {l : List Char}
    (hl : ∀ c ∈ l, P c)
    (hI : P 'I') (hf : P 'f') (hi : P 'i') (hlc : P 'l') (hb : P '•') (hd : P '-') :
    ∀ c ∈ applyReplacements l, P c := by
  unfold applyReplacements
  refine replaceChar_pred (replaceChar_pred (replaceChar_pred (replaceChar_pred
    (replaceChar_pred (replaceChar_pred (replaceChar_pred hl ?_) ?_) ?_) ?_) ?_) ?_) ?_ <;>
    intro c hc <;> simp only [List.mem_singleton, List.mem_cons, List.not_mem_nil, or_false] at hc
  · exact hc ▸ hI
  · rcases hc with hc | hc
    · exact hc ▸ hf
    · exact hc ▸ hi
  · rcases hc with hc | hc
    · exact hc ▸ hf
    · exact hc ▸ hlc
  · exact hc ▸ hb
  · exact hc ▸ hb
  · exact hc ▸ hd
  · rcases hc with hc | hc
    · exact hc ▸ hd
    · exact hc ▸ hd

lemma removeIsolated_chars : ∀ l : List Char, ∀ c ∈ removeIsolated l, c ∈ l ∨ c = ' '
  | [] => by simp [removeIsolated]
  | [c] => by
    intro a ha
    rw [removeIsolated] at ha
    exact Or.inl ha
  | [c, x] => by
    intro a ha
    rw [removeIsolated] at ha
    rcases List.mem_cons.mp ha with h | h
    · exact Or.inl (by simp [h])
    · rcases removeIsolated_chars [x] a h with h2 | h2
      · simp only [List.mem_singleton] at h2
        exact Or.inl (by simp [h2])
      · exact Or.inr h2
  | [c, x, y] => by
    intro a ha
    rw [removeIsolated] at ha
    split at ha
    · rw [List.mem_singleton] at ha
      exact Or.inr ha
    · rcases List.mem_cons.mp ha with h | h
      · exact Or.inl (by simp [h])
      · rcases removeIsolated_chars [x, y] a h with h2 | h2
        · simp only [List.mem_cons, List.mem_singleton, List.not_mem_nil, or_false] at h2
          exact Or.inl (by simp; tauto)
        · exact Or.inr h2
  | c :: x :: y :: d :: t => by
    intro a ha
    rw [removeIsolated] at ha
    split at ha
    · split at ha
      · rcases List.mem_cons.mp ha with h | h
        · exact Or.inr h
        · rcases removeIsolated_chars t a h with h2 | h2
          · exact Or.inl (by simp; tauto)
          · exact Or.inr h2
      · split at ha
        · rcases List.mem_cons.mp ha with h | h
          · exact Or.inr h
          · rcases removeIsolated_chars (d :: t) a h with h2 | h2
            · rw [List.mem_cons] at h2
              exact Or.inl (by simp; tauto)
            · exact Or.inr h2
        · rcases List.mem_cons.mp ha with h | h
          · exact Or.inl (by simp [h])
          · rcases removeIsolated_chars (x :: y :: d :: t) a h with h2 | h2
            · exact Or.inl (List.mem_cons_of_mem _ h2)
            · exact Or.inr h2
    · rcases List.mem_cons.mp ha with h | h
      · exact Or.inl (by simp [h])
      · rcases removeIsolated_chars (x :: y :: d :: t) a h with h2 | h2
        · exact Or.inl (List.mem_cons_of_mem _ h2)
        · exact Or.inr h2

lemma replaceCRLF_eq_self {l : List Char} (h : '\r' ∉ l) : replaceCRLF l = l := by
  induction l using replaceCRLF.induct with
  | case1 t ih => simp at h
  | case2 c t hne ih =>
    rw [replaceCRLF]
    · rw [List.mem_cons, not_or] at h
      rw [ih h.2]
    · exact hne
  | case3 => rfl

lemma map_cr_eq_self {l : List Char} (h : '\r' ∉ l) :
    l.map (fun c => if c = '\r' then '\n' else c) = l := by
  induction l with
  | nil => rfl
  | cons a t ih =>
    rw [List.mem_cons, not_or] at h
    simp only [List.map_cons]
    rw [if_neg (fun hh => h.1 hh.symm), ih h.2]

lemma normalizeLineEndings_eq_self {l : List Char} (h : '\r' ∉ l) :
    normalizeLineEndings l = l := by
  unfold normalizeLineEndings
  rw [replaceCRLF_eq_self h, map_cr_eq_self h]

/-- **C10**: `clean_text` output never contains a newline or carriage
return: the whitespace collapse runs first and turns every whitespace
character into a plain space, none of the later passes reintroduces any
other whitespace, and the final line-ending normalization is therefore a
no-op. -/
theorem C10_clean_text_no_newline (s : String) :
    (∀ c ∈ (clean_text s).data, isPySpace c = true → c = ' ') ∧
    '\n' ∉ (clean_text s).data ∧ '\r' ∉ (clean_text s).data ∧
    normalizeLineEndings (removeIsolated (applyReplacements (pyStripL (collapseWs s.data)))) =
      removeIsolated (applyReplacements (pyStripL (collapseWs s.data))) := by
  have hm : ∀ c ∈ removeIsolated (applyReplacements (pyStripL (collapseWs s.data))),
      c = ' ' ∨ isPySpace c = false := by
    intro c hc
    rcases removeIsolated_chars _ c hc with h | h
    · refine applyReplacements_pred (P := fun u => u = ' ' ∨ isPySpace u = false)
        (fun x hx => ?_)
        (by decide) (by decide) (by decide) (by decide) (by decide) (by decide) c h
      exact (collapse_chars s.data).1 x (pyStripL_subset x hx)
    · exact Or.inl h
  have hr : '\r' ∉ removeIsolated (applyReplacements (pyStripL (collapseWs s.data))) := by
    intro hc
    rcases hm _ hc with h | h
    · exact absurd h (by decide)
    · exact absurd h (by decide)
  have hn : '\n' ∉ removeIsolated (applyReplacements (pyStripL (collapseWs s.data))) := by
    intro hc
    rcases hm _ hc with h | h
    · exact absurd h (by decide)
    · exact absurd h (by decide)
  have heq := normalizeLineEndings_eq_self hr
  by_cases hs : s.isEmpty
  · have hstr : s = "" := (String.isEmpty_iff s).mp hs
    subst hstr
    exact ⟨by simp [show clean_text "" = "" from rfl], by simp [show clean_text "" = "" from rfl],
      by simp [show clean_text "" = "" from rfl], heq⟩
  · have hdata : (clean_text s).data =
        removeIsolated (applyReplacements (pyStripL (collapseWs s.data))) := by
      unfold clean_text
      rw [if_neg hs]
      show normalizeLineEndings _ = _
      exact heq
    refine ⟨?_, ?_, ?_, heq⟩
    · intro c hc hsp
      rw [hdata] at hc
      rcases hm c hc with h | h
      · exact h
      · rw [hsp] at h
        cases h
    · rw [hdata]
      exact hn
    · rw [hdata]
      exact hr

/-- **C10 witness**: `clean_text "a\nb" = "a b"`; the space in the output
is a plain space and no newline survives. -/
theorem C10_clean_text_no_newline_witness :
    (' ' : Char) = ' ' ∧ '\n' ∉ (clean_text "a\nb").data :=
  ⟨(C10_clean_text_no_newline "a\nb").1 ' ' (by decide) (by decide),
   (C10_clean_text_no_newline "a\nb").2.1⟩

/-! ### Claims about `extract_keywords` (C8) -/

lemma firstUniqFuel_subset : ∀ (n : ℕ) (ws : List String), ∀ w ∈ firstUniqFuel n ws, w ∈ ws := by
  intro n
  induction n with
  | zero =>
    intro ws w hw
    cases ws <;> simp [firstUniqFuel] at hw
  | succ n ih =>
    intro ws w hw
    cases ws with
    | nil => simp [firstUniqFuel] at hw
    | cons a t =>
      rw [firstUniqFuel] at hw
      rcases List.mem_cons.mp hw with h | h
      · exact h ▸ List.mem_cons_self _ _
      · exact List.mem_cons_of_mem _ (List.mem_of_mem_filter (ih _ w h))

lemma firstUniqFuel_nodup : ∀ (n : ℕ) (ws : List String), (firstUniqFuel n ws).Nodup := by
  intro n
  induction n with
  | zero =>
    intro ws
    cases ws <;> simp [firstUniqFuel]
  | succ n ih =>
    intro ws
    cases ws with
    | nil => simp [firstUniqFuel]
    | cons a t =>
      rw [firstUniqFuel]
      refine List.nodup_cons.mpr ⟨fun ha => ?_, ih _⟩
      have := List.of_mem_filter (firstUniqFuel_subset _ _ _ ha)
      simp at this

lemma indexOf_injOn {ws : List String} {a b : String} (ha : a ∈ ws) (hb : b ∈ ws)
    (h : ws.indexOf a = ws.indexOf b) : a = b :=
  (List.indexOf_inj ha hb).mp h

/-- **C8**: for every input text and every `k`, `extract_keywords`
returns at most `k` tokens; none is a stopword, each has at least 3
alphabetic characters, and each occurs in the filtered token stream
exactly as often as in the full lower-cased tokenization; and the list is
ordered by strictly descending frequency with ties broken by
first-encountered position. -/
theorem C8_extract_keywords (text : String) (k : ℕ) :
    (extract_keywords text k).length ≤ k ∧
    (∀ w ∈ extract_keywords text k,
      stop_words.contains w = false ∧ 3 ≤ w.length ∧ w.data.all isAsciiLetter = true ∧
      (filteredWords text).count w = (findKeywordTokens text).count w) ∧
    (extract_keywords text k).Pairwise (fun a b =>
      (filteredWords text).count b < (filteredWords text).count a ∨
      ((filteredWords text).count a = (filteredWords text).count b ∧
        (filteredWords text).indexOf a < (filteredWords text).indexOf b)) := by
  haveI htot : IsTotal String (rankRel (filteredWords text)) := by
    constructor
    intro a b
    unfold rankRel
    rcases Nat.lt_trichotomy ((filteredWords text).count a) ((filteredWords text).count b)
      with h | h | h
    · exact Or.inr (Or.inl h)
    · rcases Nat.le_total ((filteredWords text).indexOf a) ((filteredWords text).indexOf b)
        with hi | hi
      · exact Or.inl (Or.inr ⟨h, hi⟩)
      · exact Or.inr (Or.inr ⟨h.symm, hi⟩)
    · exact Or.inl (Or.inl h)
  haveI htrans : IsTrans String (rankRel (filteredWords text)) := by
    constructor
    intro a b c hab hbc
    unfold rankRel at *
    omega
  have hmemS : ∀ w ∈ extract_keywords text k, w ∈ filteredWords text := by
    intro w hw
    have h1 : w ∈ List.insertionSort (rankRel (filteredWords text))
        (firstUniq (filteredWords text)) := (List.take_sublist _ _).mem hw
    rw [List.mem_insertionSort] at h1
    exact firstUniqFuel_subset _ _ _ h1
  refine ⟨?_, ?_, ?_⟩
  · unfold extract_keywords most_common
    rw [List.length_take]
    exact min_le_left _ _
  · intro w hw
    have hmem := hmemS w hw
    unfold filteredWords at hmem
    have hpass := List.of_mem_filter hmem
    have htok : w ∈ findKeywordTokens text := List.mem_of_mem_filter hmem
    have hcontains : stop_words.contains w = false := by simpa using hpass
    refine ⟨hcontains, ?_, ?_, by unfold filteredWords; exact List.count_filter hpass⟩
    · unfold findKeywordTokens at htok
      rw [List.mem_map] at htok
      obtain ⟨r, hr, hrw⟩ := htok
      have := List.of_mem_filter hr
      rw [Bool.and_eq_true, decide_eq_true_eq] at this
      subst hrw
      exact this.1
    · unfold findKeywordTokens at htok
      rw [List.mem_map] at htok
      obtain ⟨r, hr, hrw⟩ := htok
      have := List.of_mem_filter hr
      rw [Bool.and_eq_true] at this
      subst hrw
      exact this.2
  · have hsorted : (List.insertionSort (rankRel (filteredWords text))
        (firstUniq (filteredWords text))).Pairwise (rankRel (filteredWords text)) :=
      List.sorted_insertionSort _ _
    have hnodup : (List.insertionSort (rankRel (filteredWords text))
        (firstUniq (filteredWords text))).Nodup :=
      ((List.perm_insertionSort _ _).nodup_iff).mpr (firstUniqFuel_nodup _ _)
    have hstrict : (List.insertionSort (rankRel (filteredWords text))
        (firstUniq (filteredWords text))).Pairwise (fun a b =>
          (filteredWords text).count b < (filteredWords text).count a ∨
          ((filteredWords text).count a = (filteredWords text).count b ∧
            (filteredWords text).indexOf a < (filteredWords text).indexOf b)) := by
      refine (hsorted.and hnodup).imp_of_mem ?_
      intro a b ha hb hr
      have ha2 : a ∈ filteredWords text := by
        rw [List.mem_insertionSort] at ha
        exact firstUniqFuel_subset _ _ _ ha
      have hb2 : b ∈ filteredWords text := by
        rw [List.mem_insertionSort] at hb
        exact firstUniqFuel_subset _ _ _ hb
      rcases hr.1 with h | ⟨hc, hi⟩
      · exact Or.inl h
      · exact Or.inr ⟨hc, lt_of_le_of_ne hi (fun he => hr.2 (indexOf_injOn ha2 hb2 he))⟩
    exact hstrict.sublist (List.take_sublist _ _)

/-- **C8 witness**: `extract_keywords "zed zed cat" 2 = ["zed", "cat"]`;
applying the theorem at `"zed"` certifies it is a non-stopword token of
length ≥ 3 counted once per occurrence. -/
theorem C8_extract_keywords_witness :
    stop_words.contains "zed" = false ∧ 3 ≤ "zed".length ∧
      "zed".data.all isAsciiLetter = true ∧
      (filteredWords "zed zed cat").count "zed" =
        (findKeywordTokens "zed zed cat").count "zed" :=
  (C8_extract_keywords "zed zed cat" 2).2.1 "zed" (by decide)

end VibeParser
